import Mathlib

/-
  Verification of the text/byte parsing layer of the linux-info crate.

  Shallow embedding conventions:
  - Rust string slices are modelled as List Char, byte slices as List Nat
    (each element a byte value).
  - Rust usize arithmetic is modelled on Nat; where the code can overflow or
    wrap, the wrap is made explicit modulo 2 ^ 64.
  - Rust f64 arithmetic (DataSize parsing/formatting, CpuStat::usage) is
    modelled with exact rational arithmetic.
  - Fallible operations return Option / Except, mirroring the code.
-/

namespace LinuxInfo

/-- Prepends an element onto the first chunk of a chunk list; used to build
Rust-style split results. On an empty chunk list it creates a single chunk. -/
def consHead (a : α) : List (List α) → List (List α)
  | [] => [[a]]
  | h :: t => (a :: h) :: t

/-- Splits a list at every element satisfying p, mirroring Rust
slice::split / str::split with a single-element pattern: separators are not
kept, every separator contributes a chunk boundary, and the empty input
yields one empty chunk. -/
def splitBy (p : α → Bool) : List α → List (List α)
  | [] => [[]]
  | a :: rest => if p a then [] :: splitBy p rest else consHead a (splitBy p rest)

theorem consHead_ne_nil (a : α) (l : List (List α)) : consHead a l ≠ [] := by
  cases l <;> simp [consHead]

theorem splitBy_ne_nil (p : α → Bool) (l : List α) : splitBy p l ≠ [] := by
  induction l with
  | nil => simp [splitBy]
  | cons a rest ih =>
    by_cases h : p a <;> simp [splitBy, h]
    exact consHead_ne_nil _ _

/-- Lowercases one ASCII letter, mirroring u8::to_ascii_lowercase. -/
def lowerChar (c : Char) : Char :=
  if 'A' ≤ c ∧ c ≤ 'Z' then Char.ofNat (c.toNat + 32) else c

/-- Mirrors str::eq_ignore_ascii_case. -/
def eqIgnoreAsciiCase (a b : List Char) : Bool :=
  a.map lowerChar == b.map lowerChar

/-- Mirrors str::trim. The code trims Unicode whitespace; the inputs relevant
here only ever carry ASCII whitespace, which Char.isWhitespace covers. -/
def trimChars (cs : List Char) : List Char :=
  ((cs.dropWhile Char.isWhitespace).reverse.dropWhile Char.isWhitespace).reverse

/-- Mirrors u8::is_ascii_digit. -/
def isAsciiDigit (c : Char) : Bool := '0' ≤ c ∧ c ≤ '9'

theorem takeWhile_append_of_all {p : α → Bool} {l r : List α}
    (hl : ∀ x ∈ l, p x = true) :
    (l ++ r).takeWhile p = l ++ r.takeWhile p := by
  induction l with
  | nil => simp
  | cons a t ih =>
    have ha : p a = true := hl a (by simp)
    simp only [List.cons_append, List.takeWhile_cons, ha, if_true]
    rw [ih fun x hx => hl x (by simp [hx])]

theorem dropWhile_append_of_all {p : α → Bool} {l r : List α}
    (hl : ∀ x ∈ l, p x = true) :
    (l ++ r).dropWhile p = r.dropWhile p := by
  induction l with
  | nil => simp
  | cons a t ih =>
    have ha : p a = true := hl a (by simp)
    simp only [List.cons_append, List.dropWhile_cons, ha, if_true]
    exact ih fun x hx => hl x (by simp [hx])

/-! ## CpuStat (src/system.rs) -/

/-- Embeds struct CpuStat (src/system.rs): seven usize jiffies counters. -/
structure CpuStat where
  user : ℕ
  nice : ℕ
  system : ℕ
  idle : ℕ
  iowait : ℕ
  irq : ℕ
  softirq : ℕ
deriving DecidableEq

/-- Release-mode Rust usize subtraction on a 64-bit target: the difference
wraps modulo 2 ^ 64 (a debug build would panic instead). Meaningful for
a, b < 2 ^ 64, the usize range. -/
def wsub (a b : ℕ) : ℕ := (a + 2 ^ 64 - b) % 2 ^ 64

/-- Embeds impl Sub for CpuStat (src/system.rs): componentwise usize
subtraction, written there with the plain subtraction operator, hence
wrapping in release builds. -/
def CpuStat.sub (a b : CpuStat) : CpuStat where
  user := wsub a.user b.user
  nice := wsub a.nice b.nice
  system := wsub a.system b.system
  idle := wsub a.idle b.idle
  iowait := wsub a.iowait b.iowait
  irq := wsub a.irq b.irq
  softirq := wsub a.softirq b.softirq

/-- Embeds CpuStat::total_time (src/system.rs). -/
def CpuStat.total_time (s : CpuStat) : ℕ :=
  s.user + s.nice + s.system + s.idle + s.iowait + s.irq + s.softirq

/-- Embeds CpuStat::active_time (src/system.rs): excludes idle and iowait. -/
def CpuStat.active_time (s : CpuStat) : ℕ :=
  s.user + s.nice + s.system + s.irq + s.softirq

/-- Embeds CpuStat::usage (src/system.rs); the f64 division is modelled by
exact rational division. -/
def CpuStat.usage (cur prev : CpuStat) : ℚ :=
  let d := cur.sub prev
  if d.total_time = 0 then 0
  else (d.active_time : ℚ) / (d.total_time : ℚ)

theorem wsub_eq_sub {a b : ℕ} (h : b ≤ a) (ha : a < 2 ^ 64) : wsub a b = a - b := by
  unfold wsub
  have h1 : a + 2 ^ 64 - b = (a - b) + 2 ^ 64 := by omega
  rw [h1, Nat.add_mod_right, Nat.mod_eq_of_lt (by omega)]

/-- Shared helper: under the monotone-sample precondition the componentwise
delta of two CpuStat samples is the exact difference. -/
theorem cpuStat_sub_eq {cur prev : CpuStat}
    (hu : prev.user ≤ cur.user) (hn : prev.nice ≤ cur.nice)
    (hs : prev.system ≤ cur.system) (hid : prev.idle ≤ cur.idle)
    (hio : prev.iowait ≤ cur.iowait) (hirq : prev.irq ≤ cur.irq)
    (hso : prev.softirq ≤ cur.softirq)
    (bu : cur.user < 2 ^ 64) (bn : cur.nice < 2 ^ 64)
    (bs : cur.system < 2 ^ 64) (bid : cur.idle < 2 ^ 64)
    (bio : cur.iowait < 2 ^ 64) (birq : cur.irq < 2 ^ 64)
    (bso : cur.softirq < 2 ^ 64) :
    cur.sub prev =
      ⟨cur.user - prev.user, cur.nice - prev.nice, cur.system - prev.system,
       cur.idle - prev.idle, cur.iowait - prev.iowait, cur.irq - prev.irq,
       cur.softirq - prev.softirq⟩ := by
  unfold CpuStat.sub
  congr 1 <;> exact wsub_eq_sub (by assumption) (by assumption)

/-- C2 counterexample: with current all zero and previous user = 1, the
componentwise delta taken by usage wraps the user field to 2 ^ 64 - 1 instead
of saturating it at zero. -/
theorem cpuStat_sub_wraps_counterexample :
    (CpuStat.sub ⟨0, 0, 0, 0, 0, 0, 0⟩ ⟨1, 0, 0, 0, 0, 0, 0⟩).user = 2 ^ 64 - 1 ∧
    (CpuStat.sub ⟨0, 0, 0, 0, 0, 0, 0⟩ ⟨1, 0, 0, 0, 0, 0, 0⟩).user ≠ 0 := by
  constructor <;> decide

/-- C2 amended: the componentwise delta does not saturate at zero. When every
field of the previous sample is at most the corresponding field of the current
sample (all fields being usize values), the delta is the exact componentwise
difference; when a previous field exceeds the current one the subtraction
wraps modulo 2 ^ 64 in release builds (and would panic in debug builds), as
the counterexample shows. -/
theorem cpuStat_sub_exact (cur prev : CpuStat)
    (hu : prev.user ≤ cur.user) (hn : prev.nice ≤ cur.nice)
    (hs : prev.system ≤ cur.system) (hid : prev.idle ≤ cur.idle)
    (hio : prev.iowait ≤ cur.iowait) (hirq : prev.irq ≤ cur.irq)
    (hso : prev.softirq ≤ cur.softirq)
    (bu : cur.user < 2 ^ 64) (bn : cur.nice < 2 ^ 64)
    (bs : cur.system < 2 ^ 64) (bid : cur.idle < 2 ^ 64)
    (bio : cur.iowait < 2 ^ 64) (birq : cur.irq < 2 ^ 64)
    (bso : cur.softirq < 2 ^ 64) :
    cur.sub prev =
      ⟨cur.user - prev.user, cur.nice - prev.nice, cur.system - prev.system,
       cur.idle - prev.idle, cur.iowait - prev.iowait, cur.irq - prev.irq,
       cur.softirq - prev.softirq⟩ :=
  cpuStat_sub_eq hu hn hs hid hio hirq hso bu bn bs bid bio birq bso

/-- Witness for cpuStat_sub_exact at the two samples of the crate test
system::tests::stat. -/
theorem cpuStat_sub_exact_witness :
    CpuStat.sub ⟨598326, 3695, 207316, 16449301, 11326, 0, 5035⟩
        ⟨47500, 2396, 21138, 741776, 6759, 0, 516⟩ =
      ⟨550826, 1299, 186178, 15707525, 4567, 0, 4519⟩ := by
  have h := cpuStat_sub_exact
    ⟨598326, 3695, 207316, 16449301, 11326, 0, 5035⟩
    ⟨47500, 2396, 21138, 741776, 6759, 0, 516⟩
    (by decide) (by decide) (by decide) (by decide) (by decide) (by decide)
    (by decide) (by decide) (by decide) (by decide) (by decide) (by decide)
    (by decide) (by decide)
  simpa using h

/-- C3: under the monotone-sample precondition, usage is exactly
active_time / total_time of the componentwise delta (active time excluding
idle and iowait), lies in [0, 1], and is 0 whenever the delta total time
is 0. -/
theorem cpuStat_usage_spec (cur prev : CpuStat)
    (hu : prev.user ≤ cur.user) (hn : prev.nice ≤ cur.nice)
    (hs : prev.system ≤ cur.system) (hid : prev.idle ≤ cur.idle)
    (hio : prev.iowait ≤ cur.iowait) (hirq : prev.irq ≤ cur.irq)
    (hso : prev.softirq ≤ cur.softirq)
    (bu : cur.user < 2 ^ 64) (bn : cur.nice < 2 ^ 64)
    (bs : cur.system < 2 ^ 64) (bid : cur.idle < 2 ^ 64)
    (bio : cur.iowait < 2 ^ 64) (birq : cur.irq < 2 ^ 64)
    (bso : cur.softirq < 2 ^ 64) :
    CpuStat.usage cur prev =
      (if CpuStat.total_time
            ⟨cur.user - prev.user, cur.nice - prev.nice, cur.system - prev.system,
             cur.idle - prev.idle, cur.iowait - prev.iowait, cur.irq - prev.irq,
             cur.softirq - prev.softirq⟩ = 0 then 0
       else (CpuStat.active_time
            ⟨cur.user - prev.user, cur.nice - prev.nice, cur.system - prev.system,
             cur.idle - prev.idle, cur.iowait - prev.iowait, cur.irq - prev.irq,
             cur.softirq - prev.softirq⟩ : ℚ) /
          (CpuStat.total_time
            ⟨cur.user - prev.user, cur.nice - prev.nice, cur.system - prev.system,
             cur.idle - prev.idle, cur.iowait - prev.iowait, cur.irq - prev.irq,
             cur.softirq - prev.softirq⟩ : ℚ)) ∧
    0 ≤ CpuStat.usage cur prev ∧ CpuStat.usage cur prev ≤ 1 ∧
    (CpuStat.total_time
        ⟨cur.user - prev.user, cur.nice - prev.nice, cur.system - prev.system,
         cur.idle - prev.idle, cur.iowait - prev.iowait, cur.irq - prev.irq,
         cur.softirq - prev.softirq⟩ = 0 → CpuStat.usage cur prev = 0) := by
  have hd := cpuStat_sub_eq hu hn hs hid hio hirq hso bu bn bs bid bio birq bso
  have hmain : CpuStat.usage cur prev =
      (if CpuStat.total_time
            ⟨cur.user - prev.user, cur.nice - prev.nice, cur.system - prev.system,
             cur.idle - prev.idle, cur.iowait - prev.iowait, cur.irq - prev.irq,
             cur.softirq - prev.softirq⟩ = 0 then 0
       else (CpuStat.active_time
            ⟨cur.user - prev.user, cur.nice - prev.nice, cur.system - prev.system,
             cur.idle - prev.idle, cur.iowait - prev.iowait, cur.irq - prev.irq,
             cur.softirq - prev.softirq⟩ : ℚ) /
          (CpuStat.total_time
            ⟨cur.user - prev.user, cur.nice - prev.nice, cur.system - prev.system,
             cur.idle - prev.idle, cur.iowait - prev.iowait, cur.irq - prev.irq,
             cur.softirq - prev.softirq⟩ : ℚ)) := by
    unfold CpuStat.usage
    rw [hd]
  have hat : ∀ d : CpuStat, d.active_time ≤ d.total_time := by
    intro d
    unfold CpuStat.active_time CpuStat.total_time
    omega
  refine ⟨hmain, ?_, ?_, fun h => by rw [hmain, if_pos h]⟩
  · rw [hmain]
    split_ifs with h
    · exact le_refl 0
    · positivity
  · rw [hmain]
    split_ifs with h
    · norm_num
    · rw [div_le_one (by positivity)]
      exact_mod_cast hat _

/-- Witness for cpuStat_usage_spec at the two samples of the crate test
system::tests::stat; the exact rational value corresponds to the f64
0.04514286735257322 asserted there. -/
theorem cpuStat_usage_spec_witness :
    CpuStat.usage ⟨598326, 3695, 207316, 16449301, 11326, 0, 5035⟩
        ⟨47500, 2396, 21138, 741776, 6759, 0, 516⟩ = (742822 : ℚ) / 16454914 := by
  have h := (cpuStat_usage_spec
    ⟨598326, 3695, 207316, 16449301, 11326, 0, 5035⟩
    ⟨47500, 2396, 21138, 741776, 6759, 0, 516⟩
    (by decide) (by decide) (by decide) (by decide) (by decide) (by decide)
    (by decide) (by decide) (by decide) (by decide) (by decide) (by decide)
    (by decide) (by decide)).1
  rw [h]
  norm_num [CpuStat.total_time, CpuStat.active_time]

/-! ## Key-value line parsing (src/cpu.rs CpuInfoEntry::values/value and
src/memory.rs Memory::values/value, which are textually identical up to an
Option wrapping that value() immediately filters away) -/

/-- Embeds the per-line step of values(): the line is split at the first
colon (splitn(2, ':')), both halves are trimmed; a line without a colon
yields none and is skipped by the surrounding filter. -/
def lineKV (line : List Char) : Option (List Char × List Char) :=
  match line.dropWhile (· != ':') with
  | [] => none
  | _ :: rest => some (trimChars (line.takeWhile (· != ':')), trimChars rest)

/-- The key/value pairs of a list of lines (the filter_map over lines). -/
def kvPairsLines (lines : List (List Char)) : List (List Char × List Char) :=
  lines.filterMap lineKV

/-- Embeds values(): split the blob on newlines, parse each line. -/
def kvPairs (raw : List Char) : List (List Char × List Char) :=
  kvPairsLines (splitBy (· == '\n') raw)

/-- Lookup over an explicit line list (helper for stating line-skipping). -/
def kvValueL (lines : List (List Char)) (key : List Char) : Option (List Char) :=
  ((kvPairsLines lines).find? fun kv => eqIgnoreAsciiCase kv.1 key).map (·.2)

/-- Embeds value(key): the first pair whose key matches ASCII
case-insensitively. -/
def kvValue (raw key : List Char) : Option (List Char) :=
  kvValueL (splitBy (· == '\n') raw) key

theorem find?_eq_head?_filter (p : α → Bool) (l : List α) :
    l.find? p = (l.filter p).head? := by
  induction l with
  | nil => rfl
  | cons a t ih =>
    cases h : p a with
    | true =>
      rw [List.find?_cons_of_pos _ h, List.filter_cons_of_pos h, List.head?_cons]
    | false =>
      rw [List.find?_cons_of_neg _ (by simp [h]), List.filter_cons_of_neg (by simp [h]), ih]

/-- C9: value(key) is ASCII case-insensitive in the queried key, returns the
value of the first matching line even when keys repeat, and lines without a
colon are skipped without affecting the result. -/
theorem kv_value_spec :
    (∀ raw k₁ k₂ : List Char, k₁.map lowerChar = k₂.map lowerChar →
       kvValue raw k₁ = kvValue raw k₂) ∧
    (∀ raw key : List Char,
       kvValue raw key =
         (((kvPairs raw).filter fun kv => eqIgnoreAsciiCase kv.1 key).head?).map (·.2)) ∧
    (∀ (pre post : List (List Char)) (bad key : List Char),
       (∀ c ∈ bad, c ≠ ':') →
       kvValueL (pre ++ bad :: post) key = kvValueL (pre ++ post) key) := by
  refine ⟨?_, ?_, ?_⟩
  · intro raw k₁ k₂ hk
    unfold kvValue kvValueL
    have hpred : (fun kv : List Char × List Char => eqIgnoreAsciiCase kv.1 k₁) =
        (fun kv : List Char × List Char => eqIgnoreAsciiCase kv.1 k₂) := by
      funext kv
      unfold eqIgnoreAsciiCase
      rw [hk]
    rw [hpred]
  · intro raw key
    unfold kvValue kvValueL kvPairs
    rw [find?_eq_head?_filter]
  · intro pre post bad key hbad
    unfold kvValueL kvPairsLines
    have hbadkv : lineKV bad = none := by
      unfold lineKV
      have : bad.dropWhile (· != ':') = [] := by
        rw [List.dropWhile_eq_nil_iff]
        intro c hc
        simpa using hbad c hc
      rw [this]
    simp [List.filterMap_append, List.filterMap_cons, hbadkv]

/-- Witness for kv_value_spec on a concrete blob with a duplicate key, mixed
case and a delimiter-free line. -/
theorem kv_value_spec_witness :
    kvValue ("Foo: 1\nnocolon\nbar: 2\nFOO: 3").data "FOO".data =
        kvValue ("Foo: 1\nnocolon\nbar: 2\nFOO: 3").data "foo".data ∧
    kvValue ("Foo: 1\nnocolon\nbar: 2\nFOO: 3").data "foo".data = some "1".data ∧
    kvValueL (["Foo: 1".data] ++ "nocolon".data :: ["FOO: 3".data]) "foo".data =
        kvValueL (["Foo: 1".data] ++ ["FOO: 3".data]) "foo".data :=
  ⟨kv_value_spec.1 _ _ _ (by decide), by decide,
   kv_value_spec.2.2 _ _ _ _ (by decide)⟩

/-! ## CpuInfo entry counting (src/cpu.rs) -/

/-- Embeds str::split("\n\n") as used by CpuInfo::all_infos: left-to-right,
non-overlapping occurrences of the two-character blank-line separator. -/
def splitNN : List Char → List (List Char)
  | [] => [[]]
  | [c] => [[c]]
  | c1 :: c2 :: rest =>
    if c1 = '\n' ∧ c2 = '\n' then [] :: splitNN rest
    else consHead c1 (splitNN (c2 :: rest))

/-- Embeds CpuInfo::all_infos (src/cpu.rs): the untrimmed raw buffer split on
the blank-line separator; each chunk is the raw text of one CpuInfoEntry. -/
def all_infos (raw : List Char) : List (List Char) := splitNN raw

/-- Embeds CpuInfo::cores (src/cpu.rs): the number of entries produced by
all_infos. -/
def cores (raw : List Char) : ℕ := (all_infos raw).length

theorem splitNN_ne_nil (s : List Char) : splitNN s ≠ [] := by
  match s with
  | [] => simp [splitNN]
  | [c] => simp [splitNN]
  | c1 :: c2 :: rest =>
    by_cases hc : c1 = '\n' ∧ c2 = '\n' <;> simp only [splitNN, hc, if_true, if_false]
    · simp
    · exact consHead_ne_nil _ _

theorem consHead_append_of_ne_nil (a : α) {l : List (List α)} (h : l ≠ [])
    (r : List (List α)) : consHead a (l ++ r) = consHead a l ++ r := by
  cases l with
  | nil => exact absurd rfl h
  | cons x xs => simp [consHead]

theorem splitNN_cons₂ (c1 c2 : Char) (rest : List Char) :
    splitNN (c1 :: c2 :: rest) =
      if c1 = '\n' ∧ c2 = '\n' then [] :: splitNN rest
      else consHead c1 (splitNN (c2 :: rest)) := rfl

theorem splitNN_append_sep : ∀ (n : ℕ) (s : List Char), s.length ≤ n →
    s.getLast? ≠ some '\n' →
    splitNN (s ++ ['\n', '\n']) = splitNN s ++ [[]] := by
  intro n
  induction n with
  | zero =>
    intro s hlen _
    have hs : s = [] := List.length_eq_zero.mp (Nat.le_zero.mp hlen)
    subst hs
    decide
  | succ n ih =>
    intro s hlen h
    match s with
    | [] => decide
    | [c] =>
      have hc : c ≠ '\n' := by
        intro heq
        exact h (by simp [heq])
      have hcond : ¬ (c = '\n' ∧ '\n' = '\n') := fun hand => hc hand.1
      have h2 : splitNN ('\n' :: '\n' :: ([] : List Char)) = [[], []] := by decide
      rw [List.cons_append, List.nil_append, splitNN_cons₂, if_neg hcond, h2]
      rfl
    | c1 :: c2 :: rest =>
      by_cases hc : c1 = '\n' ∧ c2 = '\n'
      · have hrest : rest.getLast? ≠ some '\n' := by
          cases rest with
          | nil =>
            exfalso
            exact h (by simp [hc.2])
          | cons x xs =>
            intro hlast
            exact h (by simpa [List.getLast?_cons_cons] using hlast)
        have hlen2 : rest.length ≤ n := by
          simp only [List.length_cons] at hlen
          omega
        have hih := ih rest hlen2 hrest
        rw [List.cons_append, List.cons_append, splitNN_cons₂, if_pos hc, hih,
          splitNN_cons₂, if_pos hc]
        rfl
      · have htail : (c2 :: rest).getLast? ≠ some '\n' := by
          intro hlast
          exact h (by simpa [List.getLast?_cons_cons] using hlast)
        have hlen2 : (c2 :: rest).length ≤ n := by
          simp only [List.length_cons] at hlen
          simp only [List.length_cons]
          omega
        have hih := ih (c2 :: rest) hlen2 htail
        have hne := splitNN_ne_nil (c2 :: rest)
        rw [List.cons_append, List.cons_append, splitNN_cons₂, if_neg hc]
        rw [show c2 :: (rest ++ ['\n', '\n']) = (c2 :: rest) ++ ['\n', '\n'] from rfl, hih,
          consHead_append_of_ne_nil c1 hne, splitNN_cons₂, if_neg hc]

/-- C10: cores() counts exactly the chunks of the untrimmed buffer split on
the blank-line separator; a buffer with a trailing separator gains one extra,
empty entry (so cores() is one more than the number of processor records),
and every value lookup on the empty entry returns none. -/
theorem cores_trailing_sep_spec :
    (∀ raw : List Char, cores raw = (splitNN raw).length) ∧
    (∀ s : List Char, s.getLast? ≠ some '\n' →
       cores (s ++ ['\n', '\n']) = cores s + 1 ∧
       (all_infos (s ++ ['\n', '\n'])).getLast? = some []) ∧
    (∀ key : List Char, kvValue [] key = none) := by
  refine ⟨fun raw => rfl, ?_, fun key => rfl⟩
  intro s h
  have hsp := splitNN_append_sep (s.length + 2) s (by omega) h
  constructor
  · unfold cores all_infos
    rw [hsp]
    simp
  · unfold all_infos
    rw [hsp]
    simp

/-- Witness for cores_trailing_sep_spec on a one-record buffer with a
trailing blank-line separator. -/
theorem cores_trailing_sep_spec_witness :
    cores ("processor : 0".data ++ ['\n', '\n']) = cores "processor : 0".data + 1 ∧
    cores ("processor : 0".data ++ ['\n', '\n']) = 2 :=
  ⟨(cores_trailing_sep_spec.2.1 "processor : 0".data (by decide)).1, by decide⟩

/-! ## MountPoint (src/storage.rs) -/

/-- Embeds MountPoint::values (src/storage.rs): the mountinfo line split on
single ASCII spaces (consecutive spaces yield empty fields). -/
def mountValues (raw : List Char) : List (List Char) :=
  splitBy (· == ' ') raw

/-- Embeds MountPoint::after_separator (src/storage.rs): skip the first 5
fields, then skip fields while they differ from the standalone dash, then
skip the dash itself. -/
def after_separator (raw : List Char) : List (List Char) :=
  ((((mountValues raw).drop 5).dropWhile fun t => t != ['-']).drop 1)

/-- Embeds MountPoint::filesystem_type (src/storage.rs). -/
def filesystem_type (raw : List Char) : Option (List Char) :=
  (after_separator raw).get? 0

/-- Embeds MountPoint::mount_source (src/storage.rs). -/
def mount_source (raw : List Char) : Option (List Char) :=
  (after_separator raw).get? 1

/-- Embeds MountPoint::super_options (src/storage.rs). -/
def super_options (raw : List Char) : Option (List Char) :=
  (after_separator raw).get? 2

/-- C7: on a mountinfo line without a standalone dash field, the three
post-separator accessors all return none (and no error is raised; the
accessors are total). -/
theorem mountinfo_no_separator (raw : List Char)
    (h : ['-'] ∉ mountValues raw) :
    filesystem_type raw = none ∧ mount_source raw = none ∧
      super_options raw = none := by
  have h5 : ∀ t ∈ (mountValues raw).drop 5, (t != ['-']) = true := by
    intro t ht
    have hmem : t ∈ mountValues raw := List.mem_of_mem_drop ht
    have : t ≠ ['-'] := fun he => h (he ▸ hmem)
    simpa using this
  have hdw : ((mountValues raw).drop 5).dropWhile (fun t => t != ['-']) = [] :=
    List.dropWhile_eq_nil_iff.mpr h5
  unfold filesystem_type mount_source super_options after_separator
  rw [hdw]
  exact ⟨rfl, rfl, rfl⟩

/-- Witness for mountinfo_no_separator on a concrete dash-free line. -/
theorem mountinfo_no_separator_witness :
    filesystem_type "26 29 0:5 / /dev rw,nosuid shared:2".data = none ∧
    mount_source "26 29 0:5 / /dev rw,nosuid shared:2".data = none ∧
    super_options "26 29 0:5 / /dev rw,nosuid shared:2".data = none :=
  mountinfo_no_separator "26 29 0:5 / /dev rw,nosuid shared:2".data (by decide)

/-! ## SMBIOS low-level reader (src/bios/low_level.rs, src/bios/mod.rs) -/

/-- Embeds struct Structure (src/bios/low_level.rs): header fields plus the
formatted area and string area as byte lists. The StructureKind enum is kept
as the raw kind byte, which the claims here do not inspect. -/
structure Structure where
  kind : ℕ
  len : ℕ
  handle : ℕ
  formatted : List ℕ
  strings : List ℕ
deriving DecidableEq

/-- Embeds Structure::get_str (src/bios/low_level.rs): the string area split
on null bytes, indexed at num.max(1) - 1. The final UTF-8 decoding step of
the code is not modelled; it returns the selected substring as raw bytes
(the code would additionally yield none if those bytes are not valid
UTF-8). -/
def Structure.get_str (st : Structure) (num : ℕ) : Option (List ℕ) :=
  (splitBy (· == 0) st.strings).get? (max num 1 - 1)

/-- C1 counterexample: on a structure whose string area is the single string
[65], get_str 0 returns that first string instead of no value, because the
code clamps the string number to at least 1. -/
theorem get_str_zero_counterexample :
    Structure.get_str ⟨0, 0, 0, [], [65]⟩ 0 = some [65] ∧
    Structure.get_str ⟨0, 0, 0, [], [65]⟩ 0 ≠ none := by
  constructor <;> decide

/-- C1 amended: get_str first clamps the string number to at least 1, so
N = 0 behaves exactly like N = 1; for N ≥ 1 it returns the N-th
null-delimited substring of the string area, and for N beyond the number of
substrings it returns no value. -/
theorem get_str_amended (st : Structure) (n : ℕ) :
    Structure.get_str st 0 = Structure.get_str st 1 ∧
    (1 ≤ n → Structure.get_str st n = (splitBy (· == 0) st.strings).get? (n - 1)) ∧
    ((splitBy (· == 0) st.strings).length < n → Structure.get_str st n = none) := by
  refine ⟨rfl, fun h1 => ?_, fun hlen => ?_⟩
  · unfold Structure.get_str
    rw [Nat.max_eq_left h1]
  · unfold Structure.get_str
    apply List.get?_eq_none.mpr
    omega

/-- Witness for get_str_amended on a two-string area: string number 2 is the
second substring and string number 3 is out of range. -/
theorem get_str_amended_witness :
    Structure.get_str ⟨0, 0, 0, [], [65, 0, 66]⟩ 2 = some [66] ∧
    Structure.get_str ⟨0, 0, 0, [], [65, 0, 66]⟩ 3 = none := by
  constructor
  · rw [(get_str_amended ⟨0, 0, 0, [], [65, 0, 66]⟩ 2).2.1 (by decide)]
    decide
  · exact (get_str_amended ⟨0, 0, 0, [], [65, 0, 66]⟩ 3).2.2 (by decide)

/-- Embeds enum Error (src/bios/low_level.rs). -/
inductive BiosError where
  | EntryPointNotFound
  | AnchorStringIncorrect
  | EntryPointMalformed
  | StructuresNotFound
  | StructuresMalformed
deriving DecidableEq

/-- The ANCHOR_STRING constant (src/bios/low_level.rs). -/
def anchorString : List ℕ := [0x5f, 0x53, 0x4d, 0x33, 0x5f]

/-- Little-endian value of a byte list (bytes assumed < 256), as read by the
simple_bytes little-endian readers. -/
def leVal : List ℕ → ℕ
  | [] => 0
  | b :: rest => b + 256 * leVal rest

/-- Embeds struct EntryPoint (src/bios/low_level.rs). -/
structure EntryPoint where
  checksum : ℕ
  len : ℕ
  major : ℕ
  minor : ℕ
  docrev : ℕ
  revision : ℕ
  reserved : ℕ
  table_max : ℕ
  table_addr : ℕ
deriving DecidableEq

/-- Embeds EntryPoint::read (src/bios/low_level.rs). The file read is
modelled by passing the file content; read_exact of the 24-byte buffer fails
with EntryPointMalformed when the file is shorter. Then the 5-byte anchor is
checked and the remaining fields are decoded little-endian. -/
def EntryPoint.read (buf : List ℕ) : Except BiosError EntryPoint :=
  if buf.length < 24 then .error .EntryPointMalformed
  else if buf.take 5 ≠ anchorString then .error .AnchorStringIncorrect
  else .ok
    { checksum := buf.getD 5 0
      len := buf.getD 6 0
      major := buf.getD 7 0
      minor := buf.getD 8 0
      docrev := buf.getD 9 0
      revision := buf.getD 10 0
      reserved := buf.getD 11 0
      table_max := leVal ((buf.drop 12).take 4)
      table_addr := leVal ((buf.drop 16).take 8) }

/-- Embeds struct Structures (src/bios/low_level.rs). -/
structure Structures where
  bytes : List ℕ
deriving DecidableEq

/-- Embeds Structures::read (src/bios/low_level.rs): the DMI file content is
passed as an Option (none models a missing/unreadable file); a byte count
above a nonzero table_max is StructuresMalformed. -/
def Structures.read (table_max : ℕ) (dmi : Option (List ℕ)) :
    Except BiosError Structures :=
  match dmi with
  | none => .error .StructuresNotFound
  | some buf =>
    if table_max ≠ 0 ∧ buf.length > table_max then .error .StructuresMalformed
    else .ok ⟨buf⟩

/-- Embeds struct Bios (src/bios/mod.rs). -/
structure Bios where
  entry_point : EntryPoint
  structures : Structures
deriving DecidableEq

/-- Embeds Bios::read (src/bios/mod.rs): read the entry point first and
propagate its error; only on success read the DMI structures with the
declared table_max. -/
def Bios.read (entryFile : List ℕ) (dmi : Option (List ℕ)) :
    Except BiosError Bios :=
  match EntryPoint.read entryFile with
  | .error e => .error e
  | .ok ep =>
    match Structures.read ep.table_max dmi with
    | .error e => .error e
    | .ok st => .ok ⟨ep, st⟩

/-- C8: when the first 5 bytes of a (complete, 24-byte-or-longer) entry-point
file differ from the literal anchor, EntryPoint::read fails with
AnchorStringIncorrect, and Bios::read returns that same error no matter what
the DMI table contains — in particular its result is independent of the DMI
read, which is never consulted. -/
theorem bios_read_anchor_incorrect (buf : List ℕ) (h24 : 24 ≤ buf.length)
    (hanch : buf.take 5 ≠ anchorString) :
    EntryPoint.read buf = .error .AnchorStringIncorrect ∧
    (∀ dmi : Option (List ℕ),
      Bios.read buf dmi = .error .AnchorStringIncorrect) ∧
    (∀ dmi dmi' : Option (List ℕ), Bios.read buf dmi = Bios.read buf dmi') := by
  have hep : EntryPoint.read buf = .error .AnchorStringIncorrect := by
    unfold EntryPoint.read
    rw [if_neg (by omega), if_pos hanch]
  refine ⟨hep, fun dmi => ?_, fun dmi dmi' => ?_⟩
  · unfold Bios.read
    rw [hep]
  · unfold Bios.read
    rw [hep]

/-- Witness for bios_read_anchor_incorrect on a 24-byte all-zero entry
point. -/
theorem bios_read_anchor_incorrect_witness :
    Bios.read (List.replicate 24 0) (some [1, 2, 3]) =
      .error .AnchorStringIncorrect :=
  (bios_read_anchor_incorrect (List.replicate 24 0) (by decide)
    (by decide)).2.1 (some [1, 2, 3])

/-! ## Raids / mdstat (src/storage.rs) -/

/-- Decimal value of a digit list, most significant first (the accumulator
fold of usize/f64 digit parsing). -/
def digitsToNat (ds : List Char) : ℕ :=
  ds.foldl (fun a c => 10 * a + (c.toNat - 48)) 0

/-- Mirrors str::parse::<usize>() on the inputs arising here: a nonempty
all-digit string parses to its decimal value, anything else fails. (The Rust
parser additionally accepts a leading plus sign and fails on overflow;
neither occurs in the inputs of the claims.) -/
def parseNat (cs : List Char) : Option ℕ :=
  if cs ≠ [] ∧ cs.all isAsciiDigit then some (digitsToNat cs) else none

/-- The inner scanning loop of Raids::raids (src/storage.rs): consume bytes
into the current record, with a one-newline lookahead flag; the record ends
when a newline is followed by another newline (that second newline is
consumed by the advance call) or at end of input. Returns the record bytes
and the rest of the input. -/
def scanRecord : List Char → Bool → List Char → List Char × List Char
  | acc, _, [] => (acc, [])
  | acc, one, c :: rest =>
    if one ∧ c = '\n' then (acc, rest)
    else scanRecord (acc ++ [c]) (c = '\n') rest

/-- The skip of the personalities banner in Raids::raids: consume the first
line and its newline. -/
def skipFirstLine (cs : List Char) : List Char :=
  (cs.dropWhile (· != '\n')).drop 1

/-- The record iteration of Raids::raids (src/storage.rs), fuelled by the
input length: read the key up to the colon and trim it, stop on the literal
"unused devices" key or at end of input, skip the colon, then scan one
record; each item is the (name, record text) of one Raid. -/
def parseRecordsAux : ℕ → List Char → List (List Char × List Char)
  | 0, _ => []
  | fuel + 1, cs =>
    if cs = [] then []
    else
      let key := trimChars (cs.takeWhile (· != ':'))
      if key = "unused devices".data then []
      else
        let rest := (cs.dropWhile (· != ':')).drop 1
        let pr := scanRecord [] false rest
        (key, trimChars pr.1) :: parseRecordsAux fuel pr.2

/-- Embeds Raids::raids (src/storage.rs): trim the buffer, skip the
personalities line, then iterate records. -/
def raids (raw : List Char) : List (List Char × List Char) :=
  parseRecordsAux (trimChars raw).length (skipFirstLine (trimChars raw))

/-- Embeds Raid::values (src/storage.rs): the record split on newlines, each
line trimmed and split on spaces. -/
def raidValues (raw : List Char) : List (List (List Char)) :=
  (splitBy (· == '\n') raw).map fun l => splitBy (· == ' ') (trimChars l)

/-- Embeds Raid::line (src/storage.rs): the tokens of the n-th line, empty
when there is no such line. -/
def raidLine (raw : List Char) (n : ℕ) : List (List Char) :=
  ((raidValues raw).get? n).getD []

/-- The per-token device parse of Raid::devices (src/storage.rs): split the
token on square brackets into name and index, failing if either part is
missing or the index does not parse. -/
def parseDevice (dev : List Char) : Option (ℕ × List Char) :=
  let parts := splitBy (fun c => c == '[' || c == ']') dev
  match parts.get? 0, parts.get? 1 with
  | some name, some idxs => (parseNat idxs).map fun i => (i, name)
  | _, _ => none

/-- Embeds Raid::devices (src/storage.rs): line 0, tokens from position 2
on, each parsed as a name[index] pair. -/
def devices (raw : List Char) : List (ℕ × List Char) :=
  ((raidLine raw 0).drop 2).filterMap parseDevice

/-- Embeds Raid::used_devices (src/storage.rs): the first bracket-initial
token of line 1, split on the slash; the part before the slash with the
opening bracket stripped, parsed as a number. -/
def used_devices (raw : List Char) : Option ℕ :=
  match (raidLine raw 1).find? (fun t => t.head? == some '[') with
  | none => none
  | some t =>
    match (splitBy (· == '/') t).get? 0 with
    | none => none
    | some t0 =>
      match t0 with
      | '[' :: t0r => parseNat t0r
      | _ => none

/-- Embeds Raid::ideal_devices (src/storage.rs): the first bracket-initial
token of line 1, split on the slash; the part after the slash with the
closing bracket stripped, parsed as a number. -/
def ideal_devices (raw : List Char) : Option ℕ :=
  match (raidLine raw 1).find? (fun t => t.head? == some '[') with
  | none => none
  | some t =>
    match (splitBy (· == '/') t).get? 1 with
    | none => none
    | some t1 =>
      if t1.getLast? = some ']' then parseNat t1.dropLast else none

/-- The two-array /proc/mdstat fixture of the crate test
storage::tests::raid_case_1. -/
def mdstatFixture : List Char :=
  ("Personalities : [raid1] [linear] [multipath] [raid0] [raid6] [raid5] [raid4] [raid10] \n" ++
   "md10 : active raid1 sdd[0] sdc[1]\n" ++
   "      3906886464 blocks super 1.2 [2/2] [UU]\n" ++
   "      bitmap: 0/30 pages [0KB], 65536KB chunk\n" ++
   "\n" ++
   "md0 : active raid1 sdb[1] sda[0]\n" ++
   "      499975488 blocks super 1.2 [2/2] [UU]\n" ++
   "      bitmap: 3/4 pages [12KB], 65536KB chunk\n" ++
   "\n" ++
   "unused devices: <none>\n").data

set_option maxRecDepth 100000 in
set_option maxHeartbeats 1000000 in
/-- C6: the two-array fixture parses to exactly 2 records (the banner line is
skipped, single newlines continue a record, the double newline ends it, and
the walk stops at the "unused devices" key); the records are md10 and md0,
and each has used_devices = ideal_devices = 2 and exactly 2 listed
devices. -/
theorem mdstat_two_array_fixture :
    (raids mdstatFixture).length = 2 ∧
    (raids mdstatFixture).map (·.1) = ["md10".data, "md0".data] ∧
    ∀ r ∈ raids mdstatFixture,
      used_devices r.2 = some 2 ∧ ideal_devices r.2 = some 2 ∧
        (devices r.2).length = 2 := by
  decide

/-! ## DataSize (src/util.rs)

The code computes with f64; the embedding uses exact rational arithmetic,
i.e. real-number semantics of the same expressions. All values formatted or
parsed here are nonnegative. -/

/-- Embeds enum DataSizeUnit (src/util.rs). -/
inductive DataSizeUnit where
  | B
  | Kb
  | Mb
  | Gb
  | Tb
deriving DecidableEq

/-- Embeds DataSizeUnit::val (src/util.rs): binary (1024-based)
multipliers. -/
def DataSizeUnit.val : DataSizeUnit → ℕ
  | .B => 1
  | .Kb => 1024
  | .Mb => 1024 * 1024
  | .Gb => 1024 * 1024 * 1024
  | .Tb => 1024 * 1024 * 1024 * 1024

/-- Embeds DataSizeUnit::from_str (src/util.rs): the empty suffix means
bytes; the five suffixes compare ASCII case-insensitively; anything else
fails. -/
def DataSizeUnit.from_str (s : List Char) : Option DataSizeUnit :=
  if s = [] then some .B
  else if eqIgnoreAsciiCase s "b".data then some .B
  else if eqIgnoreAsciiCase s "kb".data then some .Kb
  else if eqIgnoreAsciiCase s "mb".data then some .Mb
  else if eqIgnoreAsciiCase s "gb".data then some .Gb
  else if eqIgnoreAsciiCase s "tb".data then some .Tb
  else none

/-- Embeds DataSizeUnit::as_str (src/util.rs). -/
def DataSizeUnit.as_str : DataSizeUnit → List Char
  | .B => "b".data
  | .Kb => "kb".data
  | .Mb => "mb".data
  | .Gb => "gb".data
  | .Tb => "tb".data

/-- Embeds DataSizeUnit::adjust_to (src/util.rs). -/
def DataSizeUnit.adjust_to (byte : ℕ) : DataSizeUnit :=
  if byte < DataSizeUnit.Kb.val then .B
  else if byte < DataSizeUnit.Mb.val then .Kb
  else if byte < DataSizeUnit.Gb.val then .Mb
  else if byte < DataSizeUnit.Tb.val then .Gb
  else .Tb

/-- Embeds DataSizeUnit::convert (src/util.rs); the target-unit parameter is
called to in the code. -/
def DataSizeUnit.convert (byte : ℕ) (u : DataSizeUnit) : ℚ :=
  (byte : ℚ) / (u.val : ℚ)

/-- Computable floor of a rational (equal to the Mathlib floor, see
ratFloor_eq); kept explicit so that concrete evaluations reduce in the
kernel. -/
def ratFloor (q : ℚ) : ℤ := q.num / (q.den : ℤ)

theorem ratFloor_eq (q : ℚ) : ratFloor q = ⌊q⌋ := Rat.floor_def.symm

/-- Embeds DataSizeUnit::to_byte (src/util.rs): the product cast as u128,
which truncates toward zero (the values reaching it are nonnegative, where
truncation and floor agree; a negative value would clamp to zero in both the
cast and this model). -/
def DataSizeUnit.to_byte (u : DataSizeUnit) (v : ℚ) : ℕ :=
  (ratFloor (v * (u.val : ℚ))).toNat

/-- Embeds parse_f64 (src/util.rs): at least one leading ASCII digit, then
optionally a dot and further digits; returns the numeric value of the
consumed text together with the unconsumed rest. -/
def parse_f64 (cs : List Char) : Option (ℚ × List Char) :=
  let d1 := cs.takeWhile isAsciiDigit
  if d1 = [] then none
  else
    match cs.dropWhile isAsciiDigit with
    | '.' :: r2 =>
      let d2 := r2.takeWhile isAsciiDigit
      some ((digitsToNat d1 : ℚ) + (digitsToNat d2 : ℚ) / (10 : ℚ) ^ d2.length,
        r2.dropWhile isAsciiDigit)
    | r1 => some ((digitsToNat d1 : ℚ), r1)

/-- Embeds DataSize::from_str (src/util.rs); the result is the byte count
held by the returned DataSize. -/
def DataSize.from_str (s : List Char) : Option ℕ :=
  match parse_f64 s with
  | none => none
  | some (v, rest) =>
    match DataSizeUnit.from_str (trimChars rest) with
    | none => none
    | some u => some (u.to_byte v)

/-- The fractional part f64::fract, value minus truncated value; on the
nonnegative values occurring here truncation agrees with floor. -/
def ratFract (q : ℚ) : ℚ := q - ratFloor q

/-- Rust f64::round, which rounds half away from zero; on the nonnegative
values it is applied to here that is floor of q + 1/2. -/
def roundHalfAway (q : ℚ) : ℤ := ratFloor (q + 1 / 2)

/-- The countdown loop of calculate_precision (src/util.rs): divide the
rounded fraction by 10 up to mx times, returning the loop counter at the
first division that leaves a fractional part. -/
def calcLoop : ℚ → ℕ → ℕ
  | _, 0 => 0
  | f, m + 1 => if ratFract (f / 10) ≠ 0 then m + 1 else calcLoop (f / 10) m

/-- Embeds calculate_precision (src/util.rs). -/
def calculate_precision (fract : ℚ) (mx : ℕ) : ℕ :=
  calcLoop ((roundHalfAway (fract * 10 ^ mx) : ℤ) : ℚ) mx

/-- The precision selection of DataSizeUnit::fmt_val (src/util.rs): zero for
an integral value, the requested maximum itself when it is at most 1, and
otherwise the calculate_precision scan; the default maximum (DEF_PRECISION)
is 2. -/
def chosenPrecision (val : ℚ) (maxPrec : Option ℕ) : ℕ :=
  if ratFract val = 0 then 0
  else
    let mx := maxPrec.getD 2
    if mx ≤ 1 then mx else calculate_precision (ratFract val) mx

/-- Round to nearest with ties to even, the rounding applied by Rust {:.p}
float formatting at the cut position. -/
def rnte (q : ℚ) : ℤ :=
  if q - ratFloor q < 1 / 2 then ratFloor q
  else if 1 / 2 < q - ratFloor q then ratFloor q + 1
  else if ratFloor q % 2 = 0 then ratFloor q else ratFloor q + 1

/-- Little-endian decimal digit list (fuelled division loop). -/
def natDigitsRev : ℕ → ℕ → List ℕ
  | 0, _ => []
  | fuel + 1, n => if n = 0 then [] else n % 10 :: natDigitsRev fuel (n / 10)

/-- Decimal digit characters of n, most significant first. -/
def natToDigits (n : ℕ) : List Char :=
  if n = 0 then ['0']
  else ((natDigitsRev n n).reverse).map fun d => Char.ofNat (48 + d)

/-- Fixed-point decimal rendering with exactly p digits after the point,
mirroring the output of write!("{:.*}", p, val) for nonnegative val. -/
def renderFixed (val : ℚ) (p : ℕ) : List Char :=
  let n := (rnte (val * 10 ^ p)).toNat
  natToDigits (n / 10 ^ p) ++
    if p = 0 then []
    else '.' :: (List.replicate (p - (natToDigits (n % 10 ^ p)).length) '0' ++
      natToDigits (n % 10 ^ p))

/-- Embeds DataSizeUnit::fmt_val (src/util.rs): the adaptively-precise value,
a space, and the unit suffix. -/
def fmt_val (u : DataSizeUnit) (val : ℚ) (maxPrec : Option ℕ) : List Char :=
  renderFixed val (chosenPrecision val maxPrec) ++ ' ' :: u.as_str

/-- Embeds impl Display for DataSize (src/util.rs): pick the unit with
adjust_to, convert the byte count into it, format with fmt_val; maxPrec
models the formatter precision (none is the default). -/
def DataSize.display (bytes : ℕ) (maxPrec : Option ℕ) : List Char :=
  fmt_val (DataSizeUnit.adjust_to bytes)
    (DataSizeUnit.convert bytes (DataSizeUnit.adjust_to bytes)) maxPrec

/-- C5: parsing fails unless the input starts with an ASCII digit; the unit
suffix table is ASCII case-insensitive with base-1024 multipliers (empty
suffix or b is 1, kb is 1024, mb is 1024 squared, gb is 1024 cubed, tb is
1024 to the fourth) and any other suffix fails; on success the byte count is
the parsed number times the multiplier of the parsed suffix, truncated to an
integer byte count. -/
theorem dataSize_parse_contract :
    (∀ s : List Char, (∀ c, s.head? = some c → isAsciiDigit c = false) →
       DataSize.from_str s = none) ∧
    (∀ t : List Char,
       (DataSizeUnit.from_str t).map DataSizeUnit.val =
         if t = [] then some 1
         else if eqIgnoreAsciiCase t "b".data then some 1
         else if eqIgnoreAsciiCase t "kb".data then some 1024
         else if eqIgnoreAsciiCase t "mb".data then some (1024 ^ 2)
         else if eqIgnoreAsciiCase t "gb".data then some (1024 ^ 3)
         else if eqIgnoreAsciiCase t "tb".data then some (1024 ^ 4)
         else none) ∧
    (∀ (s : List Char) (b : ℕ), DataSize.from_str s = some b →
       ∃ (v : ℚ) (rest : List Char) (u : DataSizeUnit),
         parse_f64 s = some (v, rest) ∧
         DataSizeUnit.from_str (trimChars rest) = some u ∧
         b = (ratFloor (v * (u.val : ℚ))).toNat) := by
  refine ⟨?_, ?_, ?_⟩
  · intro s h
    cases s with
    | nil => rfl
    | cons c t =>
      have hc : isAsciiDigit c = false := h c rfl
      have hparse : parse_f64 (c :: t) = none := by
        unfold parse_f64
        simp [List.takeWhile_cons, hc]
      unfold DataSize.from_str
      rw [hparse]
  · intro t
    unfold DataSizeUnit.from_str
    split_ifs <;> rfl
  · intro s b hb
    unfold DataSize.from_str at hb
    revert hb
    cases hp : parse_f64 s with
    | none => intro hb; exact absurd hb (by simp)
    | some pr =>
      cases hu : DataSizeUnit.from_str (trimChars pr.2) with
      | none => intro hb; exact absurd hb (by simp [hu])
      | some u =>
        intro hb
        refine ⟨pr.1, pr.2, u, rfl, hu, ?_⟩
        have : some (u.to_byte pr.1) = some b := by simpa [hu] using hb
        have hbe : u.to_byte pr.1 = b := Option.some.inj this
        rw [← hbe]
        rfl

/-- Concrete evaluation: "10 kb" parses to 10 times 1024 bytes. Char-level
reduction is definitional; only the final rational product needs
arithmetic. -/
theorem from_str_ten_kb : DataSize.from_str "10 kb".data = some 10240 := by
  have h1 : DataSize.from_str "10 kb".data =
      some (DataSizeUnit.Kb.to_byte (10 : ℚ)) := rfl
  have h2 : DataSizeUnit.Kb.to_byte (10 : ℚ) = 10240 := by
    unfold DataSizeUnit.to_byte
    rw [ratFloor_eq]
    norm_num [DataSizeUnit.val]
    rfl
  rw [h1, h2]

/-- Witness for dataSize_parse_contract: a digit-free input fails, and the
successful parse of "10 kb" decomposes into the number 10, suffix kb and
byte count 10240. -/
theorem dataSize_parse_contract_witness :
    DataSize.from_str "xkb".data = none ∧
    (∃ (v : ℚ) (rest : List Char) (u : DataSizeUnit),
       parse_f64 "10 kb".data = some (v, rest) ∧
       DataSizeUnit.from_str (trimChars rest) = some u ∧
       (10240 : ℕ) = (ratFloor (v * (u.val : ℚ))).toNat) :=
  ⟨dataSize_parse_contract.1 "xkb".data (by decide),
   dataSize_parse_contract.2.2 "10 kb".data 10240 from_str_ten_kb⟩

/-! ### Decimal digit rendering lemmas -/

theorem natDigitsRev_lt_ten :
    ∀ (fuel n : ℕ) (d : ℕ), d ∈ natDigitsRev fuel n → d < 10 := by
  intro fuel
  induction fuel with
  | zero => intro n d hd; simp [natDigitsRev] at hd
  | succ f ih =>
    intro n d hd
    by_cases hn : n = 0
    · simp [natDigitsRev, hn] at hd
    · simp only [natDigitsRev, hn, if_false, List.mem_cons] at hd
      rcases hd with hd | hd
      · subst hd
        exact Nat.mod_lt _ (by norm_num)
      · exact ih _ _ hd

theorem natDigitsRev_foldr (fuel : ℕ) :
    ∀ n : ℕ, n ≤ fuel →
      (natDigitsRev fuel n).foldr (fun d a => 10 * a + d) 0 = n := by
  induction fuel with
  | zero =>
    intro n hn
    have : n = 0 := Nat.le_zero.mp hn
    simp [natDigitsRev, this]
  | succ f ih =>
    intro n hn
    by_cases hz : n = 0
    · simp [natDigitsRev, hz]
    · have hdiv : n / 10 ≤ f := by
        have := Nat.div_lt_self (Nat.pos_of_ne_zero hz) (by norm_num : (1:ℕ) < 10)
        omega
      simp only [natDigitsRev, hz, if_false, List.foldr_cons, ih _ hdiv]
      omega

theorem natDigitsRev_length_le (fuel : ℕ) :
    ∀ n k : ℕ, n ≤ fuel → n < 10 ^ k → (natDigitsRev fuel n).length ≤ k := by
  induction fuel with
  | zero =>
    intro n k hn _
    have : n = 0 := Nat.le_zero.mp hn
    simp [natDigitsRev, this]
  | succ f ih =>
    intro n k hn hk
    by_cases hz : n = 0
    · simp [natDigitsRev, hz]
    · cases k with
      | zero =>
        exfalso
        simp at hk
        omega
      | succ k' =>
        have hdiv : n / 10 ≤ f := by
          have := Nat.div_lt_self (Nat.pos_of_ne_zero hz) (by norm_num : (1:ℕ) < 10)
          omega
        have hdk : n / 10 < 10 ^ k' := by
          rw [Nat.div_lt_iff_lt_mul (by norm_num : (0:ℕ) < 10)]
          calc n < 10 ^ (k' + 1) := hk
            _ = 10 ^ k' * 10 := by ring
        simp only [natDigitsRev, hz, if_false, List.length_cons]
        have := ih _ _ hdiv hdk
        omega

theorem digitChar_toNat (d : ℕ) (h : d < 10) :
    (Char.ofNat (48 + d)).toNat = 48 + d := by
  interval_cases d <;> decide

theorem isAsciiDigit_digitChar (d : ℕ) (h : d < 10) :
    isAsciiDigit (Char.ofNat (48 + d)) = true := by
  interval_cases d <;> decide

theorem natToDigits_ne_nil (n : ℕ) : natToDigits n ≠ [] := by
  by_cases hz : n = 0
  · simp [natToDigits, hz]
  · have h1 : natDigitsRev n n ≠ [] := by
      cases n with
      | zero => exact absurd rfl hz
      | succ m => simp [natDigitsRev]
    simp [natToDigits, hz, h1]

theorem natToDigits_all_digits (n : ℕ) :
    ∀ c ∈ natToDigits n, isAsciiDigit c = true := by
  intro c hc
  by_cases hz : n = 0
  · simp [natToDigits, hz] at hc
    simp [hc]
    decide
  · simp only [natToDigits, hz, if_false, List.mem_map, List.mem_reverse] at hc
    obtain ⟨d, hd, rfl⟩ := hc
    exact isAsciiDigit_digitChar d (natDigitsRev_lt_ten n n d hd)

theorem foldr_digit_chars (l : List ℕ) (h : ∀ d ∈ l, d < 10) :
    l.foldr (fun d a => 10 * a + ((Char.ofNat (48 + d)).toNat - 48)) 0 =
      l.foldr (fun d a => 10 * a + d) 0 := by
  induction l with
  | nil => rfl
  | cons d t ih =>
    have hd : d < 10 := h d (by simp)
    simp only [List.foldr_cons, ih fun x hx => h x (by simp [hx]),
      digitChar_toNat d hd]
    omega

theorem digitsToNat_natToDigits (n : ℕ) : digitsToNat (natToDigits n) = n := by
  by_cases hz : n = 0
  · simp [hz]
    decide
  · unfold digitsToNat natToDigits
    rw [if_neg hz, List.map_reverse, List.foldl_reverse, List.foldr_map]
    have hstep :
        (natDigitsRev n n).foldr
          (fun d a => 10 * a + ((Char.ofNat (48 + d)).toNat - 48)) 0 = n := by
      rw [foldr_digit_chars _ (natDigitsRev_lt_ten n n), natDigitsRev_foldr n n le_rfl]
    exact hstep

theorem natToDigits_length_le (n k : ℕ) (hk : 1 ≤ k) (h : n < 10 ^ k) :
    (natToDigits n).length ≤ k := by
  by_cases hz : n = 0
  · simp [natToDigits, hz]
    omega
  · simp only [natToDigits, hz, if_false, List.length_map, List.length_reverse]
    exact natDigitsRev_length_le n n k le_rfl h

theorem digitsToNat_replicate_zero (k : ℕ) (ds : List Char) :
    digitsToNat (List.replicate k '0' ++ ds) = digitsToNat ds := by
  unfold digitsToNat
  rw [List.foldl_append]
  have : List.foldl (fun a c => 10 * a + (c.toNat - 48)) 0 (List.replicate k '0') = 0 := by
    induction k with
    | zero => rfl
    | succ m ih => simpa [List.replicate_succ] using ih
  rw [this]

theorem rnte_intCast (m : ℤ) : rnte ((m : ℚ)) = m := by
  unfold rnte
  rw [ratFloor_eq, Int.floor_intCast]
  norm_num

/-! ### DataSizeUnit concrete facts -/

theorem trimChars_space_as_str (u : DataSizeUnit) :
    trimChars (' ' :: u.as_str) = u.as_str := by
  cases u <;> decide

theorem unit_from_str_as_str (u : DataSizeUnit) :
    DataSizeUnit.from_str u.as_str = some u := by
  cases u <;> decide

theorem unit_val_pos (u : DataSizeUnit) : 0 < u.val := by
  cases u <;> decide

/-! ### Symbolic evaluation of parse_f64 on rendered text -/

theorem takeWhile_nondigit (rest : List Char)
    (h : ∀ c, rest.head? = some c → isAsciiDigit c = false) :
    rest.takeWhile isAsciiDigit = [] := by
  cases rest with
  | nil => rfl
  | cons c t => simp [List.takeWhile_cons, h c rfl]

theorem dropWhile_nondigit (rest : List Char)
    (h : ∀ c, rest.head? = some c → isAsciiDigit c = false) :
    rest.dropWhile isAsciiDigit = rest := by
  cases rest with
  | nil => rfl
  | cons c t => simp [List.dropWhile_cons, h c rfl]

/-- parse_f64 on a nonempty digit run followed by text that starts with
neither a digit nor a dot: the digits parse as an integer, the rest is left
unconsumed. -/
theorem parse_f64_digits_append (ds rest : List Char) (hds : ds ≠ [])
    (hall : ∀ c ∈ ds, isAsciiDigit c = true)
    (hrest : ∀ c, rest.head? = some c → isAsciiDigit c = false ∧ c ≠ '.') :
    parse_f64 (ds ++ rest) = some ((digitsToNat ds : ℚ), rest) := by
  have hrest1 : ∀ c, rest.head? = some c → isAsciiDigit c = false :=
    fun c hc => (hrest c hc).1
  simp only [parse_f64, takeWhile_append_of_all hall,
    dropWhile_append_of_all hall, takeWhile_nondigit rest hrest1,
    dropWhile_nondigit rest hrest1, List.append_nil]
  rw [if_neg hds]
  split
  · exfalso
    exact (hrest '.' rfl).2 rfl
  · rfl

/-- parse_f64 on digits, a dot, fractional digits, and a nondigit rest:
the value is the integer part plus the fraction scaled by the fractional
digit count. -/
theorem parse_f64_digits_dot (ds fs rest : List Char) (hds : ds ≠ [])
    (hallds : ∀ c ∈ ds, isAsciiDigit c = true)
    (hallfs : ∀ c ∈ fs, isAsciiDigit c = true)
    (hrest : ∀ c, rest.head? = some c → isAsciiDigit c = false) :
    parse_f64 (ds ++ '.' :: (fs ++ rest)) =
      some ((digitsToNat ds : ℚ) +
        (digitsToNat fs : ℚ) / (10 : ℚ) ^ fs.length, rest) := by
  have hdot : isAsciiDigit '.' = false := by decide
  simp only [parse_f64, takeWhile_append_of_all hallds,
    dropWhile_append_of_all hallds, List.takeWhile_cons, hdot,
    List.dropWhile_cons, List.append_nil, if_false, Bool.false_eq_true]
  rw [if_neg hds]
  simp only [takeWhile_append_of_all hallfs,
    dropWhile_append_of_all hallfs, takeWhile_nondigit rest hrest,
    dropWhile_nondigit rest hrest, List.append_nil]

/-- from_str on an input whose numeric part parses to v and whose rest is a
space followed by a unit suffix. -/
theorem from_str_of_parse (s : List Char) (v : ℚ) (u : DataSizeUnit)
    (hp : parse_f64 s = some (v, ' ' :: u.as_str)) :
    DataSize.from_str s = some ((ratFloor (v * (u.val : ℚ))).toNat) := by
  unfold DataSize.from_str
  rw [hp]
  simp only [trimChars_space_as_str, unit_from_str_as_str]
  rfl

theorem space_head_nondigit (u : DataSizeUnit) :
    ∀ c, ((' ' :: u.as_str).head? = some c) → isAsciiDigit c = false ∧ c ≠ '.' := by
  intro c hc
  simp only [List.head?_cons, Option.some.injEq] at hc
  subst hc
  exact ⟨by decide, by decide⟩

theorem renderFixed_def (val : ℚ) (p : ℕ) :
    renderFixed val p =
      natToDigits ((rnte (val * 10 ^ p)).toNat / 10 ^ p) ++
        if p = 0 then []
        else '.' ::
          (List.replicate
            (p - (natToDigits ((rnte (val * 10 ^ p)).toNat % 10 ^ p)).length) '0' ++
            natToDigits ((rnte (val * 10 ^ p)).toNat % 10 ^ p)) := rfl

/-- Core round-trip fact: when the value displayed in unit u at precision p
is exactly representable (the scaled rational is an integer), parsing the
rendered text returns exactly the original byte count. -/
theorem from_str_render (u : DataSizeUnit) (b p : ℕ)
    (hden : (DataSizeUnit.convert b u * 10 ^ p).den = 1) :
    DataSize.from_str
      (renderFixed (DataSizeUnit.convert b u) p ++ ' ' :: u.as_str) = some b := by
  have hupos : (0:ℚ) < (u.val : ℚ) := by exact_mod_cast unit_val_pos u
  have hvnn : 0 ≤ DataSizeUnit.convert b u := by
    unfold DataSizeUnit.convert
    positivity
  have hcancel : DataSizeUnit.convert b u * (u.val : ℚ) = (b : ℚ) := by
    unfold DataSizeUnit.convert
    field_simp
  have hfloorb : (ratFloor ((b : ℚ))).toNat = b := by
    rw [ratFloor_eq]
    simp
  have hqnn : (0:ℚ) ≤ DataSizeUnit.convert b u * 10 ^ p := by positivity
  have hnum : (((DataSizeUnit.convert b u * 10 ^ p).num : ℚ)) =
      DataSizeUnit.convert b u * 10 ^ p := by
    have h := Rat.num_div_den (DataSizeUnit.convert b u * 10 ^ p)
    rw [hden] at h
    simpa using h
  have hmnn : 0 ≤ (DataSizeUnit.convert b u * 10 ^ p).num :=
    Rat.num_nonneg.mpr hqnn
  have hnq : (((DataSizeUnit.convert b u * 10 ^ p).num.toNat : ℕ) : ℚ) =
      DataSizeUnit.convert b u * 10 ^ p := by
    rw [show (((DataSizeUnit.convert b u * 10 ^ p).num.toNat : ℕ) : ℚ) =
        (((DataSizeUnit.convert b u * 10 ^ p).num.toNat : ℤ) : ℚ) by push_cast; ring]
    rw [Int.toNat_of_nonneg hmnn]
    exact hnum
  set n : ℕ := (DataSizeUnit.convert b u * 10 ^ p).num.toNat with hndef
  have hrnte : (rnte (DataSizeUnit.convert b u * 10 ^ p)).toNat = n := by
    have h1 : DataSizeUnit.convert b u * 10 ^ p = (((n : ℤ)) : ℚ) := by
      rw [← hnq]
      push_cast
      ring
    rw [h1, rnte_intCast]
    simp
  by_cases hp0 : p = 0
  · subst hp0
    have hvn : ((n : ℕ) : ℚ) = DataSizeUnit.convert b u := by
      rw [hnq]
      norm_num
    have hrender : renderFixed (DataSizeUnit.convert b u) 0 = natToDigits n := by
      rw [renderFixed_def, if_pos rfl, List.append_nil, hrnte]
      norm_num
    rw [hrender]
    have hparse := parse_f64_digits_append (natToDigits n) (' ' :: u.as_str)
      (natToDigits_ne_nil n) (natToDigits_all_digits n) (space_head_nondigit u)
    rw [digitsToNat_natToDigits] at hparse
    have := from_str_of_parse _ _ u hparse
    rw [hvn, hcancel, hfloorb] at this
    exact this
  · have hppos : 1 ≤ p := Nat.one_le_iff_ne_zero.mpr hp0
    have hfplt : n % 10 ^ p < 10 ^ p := Nat.mod_lt _ (Nat.pos_pow_of_pos p (by norm_num))
    have hDlen : (natToDigits (n % 10 ^ p)).length ≤ p :=
      natToDigits_length_le _ p hppos hfplt
    have hrender : renderFixed (DataSizeUnit.convert b u) p =
        natToDigits (n / 10 ^ p) ++ '.' ::
          (List.replicate (p - (natToDigits (n % 10 ^ p)).length) '0' ++
            natToDigits (n % 10 ^ p)) := by
      rw [renderFixed_def, hrnte, if_neg hp0]
    rw [hrender]
    have hassoc :
        (natToDigits (n / 10 ^ p) ++ '.' ::
          (List.replicate (p - (natToDigits (n % 10 ^ p)).length) '0' ++
            natToDigits (n % 10 ^ p))) ++ ' ' :: u.as_str =
        natToDigits (n / 10 ^ p) ++ '.' ::
          ((List.replicate (p - (natToDigits (n % 10 ^ p)).length) '0' ++
            natToDigits (n % 10 ^ p)) ++ ' ' :: u.as_str) := by
      simp [List.append_assoc]
    rw [hassoc]
    have hallfs : ∀ c ∈ List.replicate (p - (natToDigits (n % 10 ^ p)).length) '0' ++
        natToDigits (n % 10 ^ p), isAsciiDigit c = true := by
      intro c hc
      rcases List.mem_append.mp hc with hc | hc
      · rw [List.eq_of_mem_replicate hc]
        decide
      · exact natToDigits_all_digits _ c hc
    have hparse := parse_f64_digits_dot (natToDigits (n / 10 ^ p))
      (List.replicate (p - (natToDigits (n % 10 ^ p)).length) '0' ++
        natToDigits (n % 10 ^ p)) (' ' :: u.as_str)
      (natToDigits_ne_nil _) (natToDigits_all_digits _) hallfs
      (fun c hc => (space_head_nondigit u c hc).1)
    rw [digitsToNat_natToDigits] at hparse
    rw [digitsToNat_replicate_zero, digitsToNat_natToDigits] at hparse
    have hlen : (List.replicate (p - (natToDigits (n % 10 ^ p)).length) '0' ++
        natToDigits (n % 10 ^ p)).length = p := by
      simp [List.length_append, List.length_replicate]
      omega
    rw [hlen] at hparse
    have hveq : ((n / 10 ^ p : ℕ) : ℚ) + ((n % 10 ^ p : ℕ) : ℚ) / (10:ℚ) ^ p =
        DataSizeUnit.convert b u := by
      have hdm : (10:ℕ) ^ p * (n / 10 ^ p) + n % 10 ^ p = n := Nat.div_add_mod n (10 ^ p)
      have hdmq : ((10:ℚ)) ^ p * ((n / 10 ^ p : ℕ) : ℚ) + ((n % 10 ^ p : ℕ) : ℚ) = (n : ℚ) := by
        exact_mod_cast congrArg (fun x : ℕ => (x : ℚ)) hdm
      have hpow : ((10:ℚ)) ^ p ≠ 0 := by positivity
      field_simp
      rw [mul_comm ((n / 10 ^ p : ℕ) : ℚ) ((10:ℚ) ^ p), hdmq, hnq]
    rw [hveq] at hparse
    have := from_str_of_parse _ _ u hparse
    rw [hcancel, hfloorb] at this
    exact this

/-- C4: for a byte count whose displayed value is exactly representable at
the precision the formatter chooses (the value scaled by 10 to that precision
is an integer), parsing the formatted string returns the original byte count,
and reformatting the parsed DataSize reproduces the identical displayed
string. -/
theorem dataSize_roundtrip (b : ℕ)
    (hexact : (DataSizeUnit.convert b (DataSizeUnit.adjust_to b) *
        10 ^ chosenPrecision
          (DataSizeUnit.convert b (DataSizeUnit.adjust_to b)) none).den = 1) :
    DataSize.from_str (DataSize.display b none) = some b ∧
    ∀ b' : ℕ, DataSize.from_str (DataSize.display b none) = some b' →
      DataSize.display b' none = DataSize.display b none := by
  have hdisp : DataSize.display b none =
      renderFixed (DataSizeUnit.convert b (DataSizeUnit.adjust_to b))
        (chosenPrecision (DataSizeUnit.convert b (DataSizeUnit.adjust_to b)) none) ++
        ' ' :: (DataSizeUnit.adjust_to b).as_str := rfl
  have h := from_str_render (DataSizeUnit.adjust_to b) b
    (chosenPrecision (DataSizeUnit.convert b (DataSizeUnit.adjust_to b)) none) hexact
  constructor
  · rw [hdisp]
    exact h
  · intro b' hb'
    rw [hdisp, h] at hb'
    rw [(Option.some.inj hb').symm]

/-- Witness for dataSize_roundtrip at 10240 bytes: the displayed string is
"10 kb" (mirroring the crate test unit::tests::size_str) and parsing it
returns 10240. -/
theorem dataSize_roundtrip_witness :
    DataSize.display 10240 none = "10 kb".data ∧
    DataSize.from_str (DataSize.display 10240 none) = some 10240 := by
  have hconv : DataSizeUnit.convert 10240 (DataSizeUnit.adjust_to 10240) = 10 := by
    norm_num [DataSizeUnit.convert,
      show DataSizeUnit.adjust_to 10240 = DataSizeUnit.Kb from rfl, DataSizeUnit.val]
  have hfract : ratFract (10 : ℚ) = 0 := by
    norm_num [ratFract, ratFloor]
  have hcp : chosenPrecision (10 : ℚ) none = 0 := by
    unfold chosenPrecision
    rw [if_pos hfract]
  have hexact : (DataSizeUnit.convert 10240 (DataSizeUnit.adjust_to 10240) *
      10 ^ chosenPrecision
        (DataSizeUnit.convert 10240 (DataSizeUnit.adjust_to 10240)) none).den = 1 := by
    rw [hconv, hcp]
    norm_num
  have hd : DataSize.display 10240 none =
      renderFixed (DataSizeUnit.convert 10240 (DataSizeUnit.adjust_to 10240))
        (chosenPrecision (DataSizeUnit.convert 10240 (DataSizeUnit.adjust_to 10240)) none) ++
        ' ' :: (DataSizeUnit.adjust_to 10240).as_str := rfl
  have hrn : rnte ((10 : ℚ) * 10 ^ (0 : ℕ)) = 10 := by
    rw [show ((10 : ℚ) * 10 ^ (0 : ℕ)) = (((10 : ℤ)) : ℚ) by norm_num]
    exact rnte_intCast 10
  have hdisp : DataSize.display 10240 none = "10 kb".data := by
    rw [hd, hconv, hcp, renderFixed_def, hrn]
    decide
  exact ⟨hdisp, (dataSize_roundtrip 10240 hexact).1⟩

end LinuxInfo
